import Mathlib

/-!
Verification development for the ugt-fwtools simulation engine
(`src/ugt_fwtools/simulation.py`): module mask derivation, test-vector
partitioning, the trigger histogram, result aggregation with the
pass/fail verdict, and the launch coordinator handshake.

All machine integers of the Python source are unbounded, so they are
embedded as `Nat`; text is embedded as `List Char`; fallible code paths
(IndexError, ValueError, KeyError, timeouts) are embedded as `Option`
or explicit error values.
-/

namespace UgtSim

/-- Algorithm metadata entry, as supplied by the menu collaborator: an
algorithm has a bit index, a name, and the id of the module owning it. -/
structure Algorithm where
  index : Nat
  name : String
  module_id : Nat
deriving DecidableEq

/-- Modelled from the spec: the menu metadata collaborator (the xmlmenu
module, which is not among the sources under verification) supplies a
lookup `byIndex(i) -> Algorithm | none` returning the algorithm with the
given index, if any. -/
def byIndex (menu : List Algorithm) (i : Nat) : Option Algorithm :=
  menu.find? (fun a => a.index == i)

/-- Modelled from the spec: the menu metadata collaborator supplies
`byModuleId(id) -> iterable<Algorithm>`, the algorithms owned by the
module with that id (those whose `module_id` equals `id`). -/
def byModuleId (menu : List Algorithm) (id : Nat) : List Algorithm :=
  menu.filter (fun a => a.module_id == id)

/-- Embedding of `Module.get_mask` (simulation.py lines 220-224): the OR
of `1 << algo.index` over the algorithms owned by the module. -/
def get_mask (menu : List Algorithm) (id : Nat) : Nat :=
  (byModuleId menu id).foldl (fun mask algo => mask ||| (1 <<< algo.index)) 0

/-- Maximum number of algorithm bits (`max_algorithms` in simulation.py). -/
def max_algorithms : Nat := 512

/-- Fixed ignore list `IGNORED_ALGOS` from simulation.py lines 22-25. -/
def IGNORED_ALGOS : List String :=
  ["L1_FirstBunchInTrain", "L1_SecondBunchInTrain"]

/-- Whitespace characters recognised by Python `str.split` (ASCII range). -/
def isSpace (c : Char) : Bool :=
  c = ' ' || c = '\t' || c = '\n' || c = '\r' || c = Char.ofNat 11 || c = Char.ofNat 12

/-- Fuel-driven worker for `splitWs`; the fuel only makes the recursion
structural (each step consumes at least one character) and never runs out
when it starts at the length of the string plus one. -/
def splitWsAux : Nat → List Char → List (List Char)
  | 0, _ => []
  | _ + 1, [] => []
  | fuel + 1, c :: cs =>
    if isSpace c then splitWsAux fuel cs
    else (c :: (cs.takeWhile (fun x => !isSpace x))) ::
      splitWsAux fuel (cs.dropWhile (fun x => !isSpace x))

/-- Embedding of Python `str.split()` (as used via `line.strip().split()`):
split on runs of whitespace, dropping empty fields. -/
def splitWs (s : List Char) : List (List Char) :=
  splitWsAux (s.length + 1) s

/-- Embedding of `" ".join(columns)`. -/
def joinSpace : List (List Char) → List Char
  | [] => []
  | [t] => t
  | t :: ts => t ++ ' ' :: joinSpace ts

/-- Value of a single hexadecimal digit character, if it is one. -/
def hexDigit? (c : Char) : Option Nat :=
  if '0' ≤ c ∧ c ≤ '9' then some (c.toNat - 48)
  else if 'a' ≤ c ∧ c ≤ 'f' then some (c.toNat - 87)
  else if 'A' ≤ c ∧ c ≤ 'F' then some (c.toNat - 55)
  else none

/-- Accumulating parser for a run of hexadecimal digits. -/
def parseHexDigitsAux : List Char → Nat → Option Nat
  | [], acc => some acc
  | c :: cs, acc =>
    match hexDigit? c with
    | some d => parseHexDigitsAux cs (acc * 16 + d)
    | none => none

/-- Embedding of Python `int(s, 16)` on the nonnegative inputs that occur
here: an optional `0x`/`0X` base marker followed by a nonempty run of hex
digits. Signs, underscore separators and surrounding whitespace (which
cannot occur in a token produced by `split`) are not modelled. -/
def parseHex? (s : List Char) : Option Nat :=
  match s with
  | [] => none
  | [c] => parseHexDigitsAux [c] 0
  | c0 :: c1 :: rest =>
      if c0 = '0' ∧ (c1 = 'x' ∨ c1 = 'X') then
        (if rest = [] then none else parseHexDigitsAux rest 0)
      else parseHexDigitsAux (c0 :: c1 :: rest) 0

/-- Lowercase hexadecimal digit character for a value below 16. -/
def hexDigitChar (n : Nat) : Char :=
  if n < 10 then Char.ofNat (48 + n) else Char.ofNat (87 + n)

/-- Fuel-driven worker for `natToHex` (the fuel only makes the recursion
structural; `n + 1` units always suffice since the argument shrinks). -/
def natToHexAux : Nat → Nat → List Char
  | 0, _ => []
  | fuel + 1, n =>
    if n < 16 then [hexDigitChar n]
    else natToHexAux fuel (n / 16) ++ [hexDigitChar (n % 16)]

/-- Hexadecimal digits of a natural number, most significant first
(what Python `format(n, "x")` produces). -/
def natToHex (n : Nat) : List Char :=
  natToHexAux (n + 1) n

/-- Embedding of Python `format(n, "0128x")` (for general minimum width):
lowercase hexadecimal, zero padded on the left to the minimum width. -/
def formatHexPad (width n : Nat) : List Char :=
  List.replicate (width - (natToHex n).length) '0' ++ natToHex n

/-- Fuel-driven worker for `natToDec`. -/
def natToDecAux : Nat → Nat → List Char
  | 0, _ => []
  | fuel + 1, n =>
    if n < 10 then [Char.ofNat (48 + n)]
    else natToDecAux fuel (n / 10) ++ [Char.ofNat (48 + n % 10)]

/-- Decimal digits of a natural number, most significant first
(what a Python f-string renders for an `int`). -/
def natToDec (n : Nat) : List Char :=
  natToDecAux (n + 1) n

/-- Binary digit character used by `format(i, "b")`. -/
def binDigitChar (n : Nat) : Char :=
  if n % 2 = 1 then '1' else '0'

/-- Fuel-driven worker for `natToBin`. -/
def natToBinAux : Nat → Nat → List Char
  | 0, _ => []
  | fuel + 1, n =>
    if n < 2 then [binDigitChar n]
    else natToBinAux fuel (n / 2) ++ [binDigitChar (n % 2)]

/-- Binary digits of a natural number, most significant first. -/
def natToBin (n : Nat) : List Char :=
  natToBinAux (n + 1) n

/-- Embedding of `bitfield(i, n)` (simulation.py lines 122-127): the binary
rendering of `i` zero padded to minimum width `n`, each digit mapped to its
numeric value, then reversed so position `k` holds bit `k`. -/
def bitfield (i n : Nat) : List Nat :=
  ((List.replicate (n - (natToBin i).length) '0' ++ natToBin i).map
    (fun c => c.toNat - 48)).reverse

/-- Processing of one tokenized test-vector line by `write_testvector`
(simulation.py lines 102-107): parse the second-to-last field as hex, AND
with the mask, re-render zero padded to 128 hex digits, and recompute the
fin-or field. `none` models the IndexError (fewer than 2 fields) or
ValueError (unparsable hex) raised by the source. -/
def processTokens? (mask : Nat) (ts : List (List Char)) : Option (List (List Char)) :=
  if 2 ≤ ts.length then
    match parseHex? (ts.getD (ts.length - 2) []) with
    | none => none
    | some v =>
        let mask_trigger := v &&& mask
        some ((ts.set (ts.length - 2) (formatHexPad 128 mask_trigger)).set
          (ts.length - 1) (if mask_trigger = 0 then ['0'] else ['1']))
  else none

/-- One line of `write_testvector`: tokenize, process, reassemble. -/
def writeTestvectorLine? (mask : Nat) (line : List Char) : Option (List Char) :=
  (processTokens? mask (splitWs line)).map joinSpace

/-- Sequential run of `write_testvector` over the whole source file:
returns the lines actually written to the destination and whether the run
completed; a malformed line aborts the loop, so nothing after it is
written (the exception propagates out of the line loop). -/
def writeTestvectorRun (mask : Nat) : List (List Char) → List (List Char) × Bool
  | [] => ([], true)
  | l :: ls =>
    match writeTestvectorLine? mask l with
    | none => ([], false)
    | some l2 =>
        let r := writeTestvectorRun mask ls
        (l2 :: r.1, r.2)

/-- Result of a completed `write_testvector` run (`none` if any line of the
source file is malformed). -/
def writeTestvectorFile? (mask : Nat) (lines : List (List Char)) :
    Option (List (List Char)) :=
  let r := writeTestvectorRun mask lines
  if r.2 then some r.1 else none

/-- Whether a source line makes `write_testvector` (and `trigger_list`)
fail: fewer than 2 whitespace-separated fields, or a second-to-last field
that does not parse as base 16. -/
def lineMalformed (line : List Char) : Bool :=
  decide ((splitWs line).length < 2) ||
    (parseHex? ((splitWs line).getD ((splitWs line).length - 2) [])).isNone

/-- Firing value of one test-vector line: the second-to-last field parsed
as base 16 (as read by `trigger_list` and `write_testvector`). -/
def triggerLine? (line : List Char) : Option Nat :=
  if 2 ≤ (splitWs line).length then
    parseHex? ((splitWs line).getD ((splitWs line).length - 2) [])
  else none

/-- Embedding of `trigger_list` (simulation.py lines 111-119): start from
512 zero counters and add, per line, the `bitfield` of the line's firing
value (zipped elementwise, which truncates at 512). -/
def triggerListFile? (lines : List (List Char)) : Option (List Nat) :=
  lines.foldlM
    (fun out line => (triggerLine? line).map
      (fun v => List.zipWith (fun x y => x + y) out (bitfield v max_algorithms)))
    (List.replicate max_algorithms 0)

/-- One per-algorithm total from a module's JSON `counts` array. -/
structure CountEntry where
  algo_index : Nat
  algo_sim : Nat
  algo_tv : Nat
deriving DecidableEq

/-- One per-bx mismatch record from a module's JSON `errors` array. -/
structure ErrorEntry where
  bx_nr : Nat
  algos_sim : List Char
  algos_tv : List Char
  finor_sim : Nat
  finor_tv : Nat
deriving DecidableEq

/-- Parsed JSON result artifact of one module. -/
structure ModuleResult where
  errors : List ErrorEntry
  counts : List CountEntry
deriving DecidableEq

/-- Loop body of `check_algocount` (simulation.py lines 181-191): keep the
positions whose count is nonzero, paired with the count. -/
def check_algocountAux : List Nat → Nat → List (Int × Nat)
  | [], _ => []
  | x :: xs, idx =>
    if x ≠ 0 then ((idx : Int), x) :: check_algocountAux xs (idx + 1)
    else check_algocountAux xs (idx + 1)

/-- Embedding of `check_algocount`: the nonzero (position, count) pairs of
the list, or the sentinel `(-1, 0)` if every count is zero. -/
def check_algocount (liste : List Nat) : List (Int × Nat) :=
  let aus_liste := check_algocountAux liste 0
  if aus_liste.isEmpty then [(-1, 0)] else aus_liste

/-- Embedding of `check_multiple`: whether the list has more than one entry. -/
def check_multiple (liste : List (Int × Nat)) : Bool :=
  liste.length > 1

/-- Accumulated `algo_sim` counts for one algorithm index, in module order
then entry order (the list `algos_sim[index]` built in simulation.py lines
450-457 before `check_algocount` is applied). -/
def accumSim (modules : List ModuleResult) (index : Nat) : List Nat :=
  (((modules.map ModuleResult.counts).flatten).filter
    (fun c => c.algo_index == index)).map CountEntry.algo_sim

/-- Accumulated `algo_tv` counts for one algorithm index (`algos_tv[index]`). -/
def accumTv (modules : List ModuleResult) (index : Nat) : List Nat :=
  (((modules.map ModuleResult.counts).flatten).filter
    (fun c => c.algo_index == index)).map CountEntry.algo_tv

/-- Dictionary lookup `algos_sim[index]`: `none` models the KeyError on an
index that never accumulated any module's report. -/
def algosDictSim? (modules : List ModuleResult) (index : Nat) : Option (List Nat) :=
  let l := accumSim modules index
  if l.isEmpty then none else some l

/-- Dictionary lookup `algos_tv[index]`. -/
def algosDictTv? (modules : List ModuleResult) (index : Nat) : Option (List Nat) :=
  let l := accumTv modules index
  if l.isEmpty then none else some l

/-- The tuple `algos_sim[index][0]` used by the verdict comparison (after
`check_algocount` has replaced the raw count list). -/
def compTupleSim? (modules : List ModuleResult) (index : Nat) : Option (Int × Nat) :=
  (algosDictSim? modules index).bind (fun l => (check_algocount l).head?)

/-- The tuple `algos_tv[index][0]` used by the verdict comparison. -/
def compTupleTv? (modules : List ModuleResult) (index : Nat) : Option (Int × Nat) :=
  (algosDictTv? modules index).bind (fun l => (check_algocount l).head?)

/-- Helper for the amended C4 wording: first nonzero entry of a count
list, paired with its position. -/
def firstNonzeroEntryAux : List Nat → Nat → Option (Int × Nat)
  | [], _ => none
  | x :: xs, idx =>
    if x ≠ 0 then some ((idx : Int), x) else firstNonzeroEntryAux xs (idx + 1)

/-- Statement of the amended C4 claim, written from its words: the
comparison tuple is the first nonzero count (with its position in report
order), or the sentinel `(-1, 0)` when every reported count is zero. -/
def firstNonzeroEntry (l : List Nat) : Int × Nat :=
  (firstNonzeroEntryAux l 0).getD (-1, 0)

/-- State of the per-algorithm summary loop (simulation.py lines 486-507):
running verdict, error counter, and the ignored algorithm indices. -/
structure AlgoScan where
  success : Bool
  err_cnt : Nat
  ignored_algos : List Nat
deriving DecidableEq

/-- Body of the per-algorithm summary loop: an ignored algorithm is only
recorded; otherwise the first tuples of `algos_tv[index]` and
`algos_sim[index]` are compared and a mismatch bumps the error counter and
flips the verdict. `none` models the KeyError on an unreported index. -/
def perAlgoStep (a_ignored : Bool) (modules : List ModuleResult)
    (st : AlgoScan) (algo : Algorithm) : Option AlgoScan :=
  if IGNORED_ALGOS.contains algo.name && a_ignored then
    some { st with ignored_algos := st.ignored_algos ++ [algo.index] }
  else
    match compTupleTv? modules algo.index, compTupleSim? modules algo.index with
    | some tv, some sim =>
        if tv.2 != sim.2 then
          some { success := false, err_cnt := st.err_cnt + 1,
                 ignored_algos := st.ignored_algos }
        else some st
    | _, _ => none

/-- Stable insertion of an algorithm into an index-sorted list: it goes
after every element with an index less than or equal to its own. -/
def insertSorted (a : Algorithm) : List Algorithm → List Algorithm
  | [] => [a]
  | b :: bs => if b.index ≤ a.index then b :: insertSorted a bs else a :: b :: bs

/-- Menu algorithms sorted by ascending index, as in
`sorted(menu.algorithms, key=lambda algorithm: algorithm.index)` (a stable
sort by the index key; any stable sort produces the same list). -/
def sortedAlgos (menu : List Algorithm) : List Algorithm :=
  menu.foldr insertSorted []

/-- The whole per-algorithm summary loop. -/
def algoScan? (a_ignored : Bool) (menu : List Algorithm)
    (modules : List ModuleResult) : Option AlgoScan :=
  (sortedAlgos menu).foldlM (perAlgoStep a_ignored modules)
    { success := true, err_cnt := 0, ignored_algos := [] }

/-- Per-module mismatch count of the per-bx scan (simulation.py lines
514-518): entries of the module's `counts` whose index is not ignored and
whose reference and simulated totals differ. -/
def countMismatches (ignored_algos : List Nat) (m : ModuleResult) : Nat :=
  (m.counts.filter (fun e =>
    !(ignored_algos.contains e.algo_index) && e.algo_tv != e.algo_sim)).length

/-- The `json_err_msg` flag (simulation.py lines 511-523): it stays true
unless some module with a nonempty `errors` array has a nonzero mismatch
count. -/
def jsonErrMsgFlag (ignored_algos : List Nat) (modules : List ModuleResult) : Bool :=
  modules.all (fun m => m.errors.isEmpty || countMismatches ignored_algos m == 0)

/-- Untracked-trigger scan (simulation.py lines 527-531): histogram
positions with a nonzero count and no owning menu algorithm. -/
def untrackedTriggers (menu : List Algorithm) (trigger_liste : List Nat) :
    List (Nat × Nat) :=
  (List.range trigger_liste.length).filterMap (fun index =>
    if (byIndex menu index).isNone && trigger_liste.getD index 0 > 0 then
      some (index, trigger_liste.getD index 0)
    else none)

/-- The distinct algorithm indices reported across all modules (the key
set of the `algos_sim` / `algos_tv` dictionaries). -/
def reportedIndices (modules : List ModuleResult) : List Nat :=
  (((modules.map ModuleResult.counts).flatten).map CountEntry.algo_index).dedup

/-- Whether the `for index in range(len(algos_sim))` rewrite loops
(simulation.py lines 459-463) complete without a KeyError: every position
below the number of keys must itself be a key. -/
def transformOk (modules : List ModuleResult) : Bool :=
  (List.range (reportedIndices modules).length).all
    (fun k => (reportedIndices modules).contains k)

/-- Whether the multiple-algorithms report loops (simulation.py lines
544-558) complete without an AttributeError: an index with more than one
surviving tuple must have an owning menu algorithm. -/
def multipleOk (menu : List Algorithm) (modules : List ModuleResult) : Bool :=
  (reportedIndices modules).all (fun index =>
    (!(check_multiple (check_algocount (accumSim modules index))) ||
      (byIndex menu index).isSome) &&
    (!(check_multiple (check_algocount (accumTv modules index))) ||
      (byIndex menu index).isSome))

/-- Outcome of the summary phase: the final `success` flag, the error
counter printed on exit, and the `json_err_msg` flag. -/
structure RunVerdict where
  success : Bool
  err_cnt : Nat
  json_err_msg : Bool
deriving DecidableEq

/-- Embedding of the summary/verdict phase of `run_simulation_questa`
(simulation.py lines 437-580) as a function of the aggregated inputs:
`none` models a crash (KeyError / AttributeError) before the verdict is
reached. -/
def runVerdict? (a_ignored : Bool) (menu : List Algorithm)
    (modules : List ModuleResult) (trigger_liste : List Nat) : Option RunVerdict :=
  if transformOk modules then
    (algoScan? a_ignored menu modules).bind (fun scan =>
      if multipleOk menu modules then
        some { success := scan.success && (untrackedTriggers menu trigger_liste).isEmpty,
               err_cnt := scan.err_cnt,
               json_err_msg := jsonErrMsgFlag scan.ignored_algos modules }
      else none)
  else none

/-- Whether the summary prints the green Success verdict (simulation.py
lines 562-565): only when both flags survived. -/
def printedPass (v : RunVerdict) : Bool :=
  v.json_err_msg && v.success

/-- Process exit status chosen at simulation.py lines 575-580: `exit(1)`
only when `success` is false, otherwise the function returns and the
process exits 0. -/
def exitCode (v : RunVerdict) : Nat :=
  if v.success then 0 else 1

/-- Error raised by the coordinator before the join phase. -/
inductive CoordError where
  | partitionError (moduleId : Nat) : CoordError
  | lockTimeout (message : List Char) : CoordError
deriving DecidableEq

/-- State of the launch loop: jobs started, jobs cancelled (the source
never cancels a started job), and the pending fatal error. -/
structure LaunchState where
  launched : List Nat
  cancelled : List Nat
  error : Option (List Char)
deriving DecidableEq

/-- Path of a module's lock marker file
(`os.path.join(module.path, "running.lock")` with
`module.path = os.path.join(base_path, f"module_{id}")`). -/
def lockFilePath (base : List Char) (id : Nat) : List Char :=
  base ++ '/' :: ("module_".toList ++ natToDec id) ++ '/' :: ("running.lock".toList)

/-- Message of the launch timeout error (simulation.py line 428), naming
the missing marker path in repr quotes. -/
def timeoutMessage (path : List Char) : List Char :=
  "Timeout waiting for creation of file: ".toList ++
    (Char.ofNat 39) :: (path ++ [Char.ofNat 39])

/-- Launch loop of `run_simulation_questa` (simulation.py lines 418-430):
each module's job is started, then the coordinator polls for the module's
lock marker; `lockAppears id` abstracts whether the marker shows up within
the 60 s timeout. On a timeout the loop stops with the error naming the
marker path, so no later module is launched; nothing is ever cancelled. -/
def launchLoop (lockAppears : Nat → Bool) (base : List Char) :
    List Nat → LaunchState → LaunchState
  | [], st => st
  | id :: rest, st =>
    let st2 : LaunchState := { st with launched := st.launched ++ [id] }
    if lockAppears id then launchLoop lockAppears base rest st2
    else { st2 with error := some (timeoutMessage (lockFilePath base id)) }

/-- Partition phase of the coordinator (simulation.py lines 394-410): the
masked test vector of each module is written in module order; a malformed
line aborts the whole phase with the failing module's id. -/
def prepPhase (tv : List (List Char)) : List Nat → Nat →
    List (List (List Char)) × Option Nat
  | [], _ => ([], none)
  | mask :: rest, id =>
    let r := writeTestvectorRun mask tv
    if r.2 then
      let rr := prepPhase tv rest (id + 1)
      (r.1 :: rr.1, rr.2)
    else ([r.1], some id)

/-- Observable outcome of the partition and launch phases. -/
structure CoordResult where
  written : List (List (List Char))
  launched : List Nat
  cancelled : List Nat
  error : Option CoordError
deriving DecidableEq

/-- Partition-then-launch structure of `run_simulation_questa`: all module
test vectors are materialized (lines 394-410) before any simulation job is
started (lines 418-430); a partition failure therefore prevents every
launch. -/
def coordinatorRun (base : List Char) (masks : List Nat)
    (tv : List (List Char)) (lockAppears : Nat → Bool) : CoordResult :=
  let p := prepPhase tv masks 0
  match p.2 with
  | some id =>
      { written := p.1, launched := [], cancelled := [],
        error := some (CoordError.partitionError id) }
  | none =>
      let ls := launchLoop lockAppears base (List.range masks.length)
        { launched := [], cancelled := [], error := none }
      { written := p.1, launched := ls.launched, cancelled := ls.cancelled,
        error := ls.error.map CoordError.lockTimeout }

theorem testBit_get_mask_fold (l : List Algorithm) (acc : Nat) (b : Nat) :
    Nat.testBit (l.foldl (fun mask algo => mask ||| (1 <<< algo.index)) acc) b
      = (Nat.testBit acc b || l.any (fun a => a.index == b)) := by
  induction l generalizing acc with
  | nil => simp
  | cons a t ih =>
      rw [List.foldl_cons, ih]
      rw [Nat.testBit_or, Nat.shiftLeft_eq, one_mul, Nat.testBit_two_pow]
      simp only [List.any_cons, Bool.or_assoc]
      cases hab : (a.index == b) with
      | true =>
          have heq : a.index = b := by simpa using hab
          rw [decide_eq_true heq]
      | false =>
          have hne : ¬ a.index = b := by simpa using hab
          rw [decide_eq_false hne]

theorem testBit_get_mask (menu : List Algorithm) (id b : Nat) :
    Nat.testBit (get_mask menu id) b
      = (byModuleId menu id).any (fun a => a.index == b) := by
  rw [get_mask, testBit_get_mask_fold]
  simp

/-- C2: in an algorithm list where each algorithm index is unique (and each
algorithm carries a single owning `module_id`), the masks computed by
`Module.get_mask` for two distinct module ids are disjoint:
`mask_i &&& mask_j = 0`. -/
theorem c2_masks_pairwise_disjoint (menu : List Algorithm) (i j : Nat)
    (hUnique : (menu.map Algorithm.index).Nodup) (hij : i ≠ j) :
    get_mask menu i &&& get_mask menu j = 0 := by
  apply Nat.eq_of_testBit_eq
  intro b
  rw [Nat.testBit_and, Nat.zero_testBit, testBit_get_mask, testBit_get_mask]
  cases h1 : (byModuleId menu i).any (fun a => a.index == b) with
  | false => rw [Bool.false_and]
  | true =>
  cases h2 : (byModuleId menu j).any (fun a => a.index == b) with
  | false => rw [Bool.and_false]
  | true =>
  exfalso
  rw [List.any_eq_true] at h1 h2
  obtain ⟨a1, ha1, hb1⟩ := h1
  obtain ⟨a2, ha2, hb2⟩ := h2
  rw [byModuleId, List.mem_filter] at ha1 ha2
  have hidx : a1.index = a2.index := by
    have e1 : a1.index = b := by simpa using hb1
    have e2 : a2.index = b := by simpa using hb2
    rw [e1, e2]
  have : a1 = a2 := List.inj_on_of_nodup_map hUnique ha1.1 ha2.1 hidx
  apply hij
  have m1 : a1.module_id = i := by simpa using ha1.2
  have m2 : a2.module_id = j := by simpa using ha2.2
  rw [← m1, ← m2, this]

/-- Witness for C2 at a concrete menu: two algorithms, index 0 owned by
module 0 and index 5 owned by module 1, produce disjoint masks. -/
theorem c2_masks_pairwise_disjoint_witness :
    get_mask [⟨0, "L1_A", 0⟩, ⟨5, "L1_B", 1⟩] 0 &&&
      get_mask [⟨0, "L1_A", 0⟩, ⟨5, "L1_B", 1⟩] 1 = 0 :=
  c2_masks_pairwise_disjoint [⟨0, "L1_A", 0⟩, ⟨5, "L1_B", 1⟩] 0 1
    (by decide) (by decide)

theorem getD_set_self (l : List α) (n : Nat) (v d : α) (h : n < l.length) :
    (l.set n v).getD n d = v := by
  rw [List.getD_eq_getElem?_getD, List.getElem?_set_self h]
  rfl

theorem getD_set_ne (l : List α) (m n : Nat) (v d : α) (h : m ≠ n) :
    (l.set m v).getD n d = l.getD n d := by
  rw [List.getD_eq_getElem?_getD, List.getElem?_set_ne h, ← List.getD_eq_getElem?_getD]

theorem set_getD_self (l : List α) (n : Nat) (d : α) (h : n < l.length) :
    l.set n (l.getD n d) = l := by
  rw [List.getD_eq_getElem?_getD, List.getElem?_eq_getElem h]
  apply List.ext_getElem?
  intro m
  by_cases hm : n = m
  · subst hm
    rw [List.getElem?_set_self h, List.getElem?_eq_getElem h]
    simp
  · rw [List.getElem?_set_ne hm]

theorem splitWsAux_irrel (f1 : Nat) : ∀ (f2 : Nat) (s : List Char),
    s.length < f1 → s.length < f2 → splitWsAux f1 s = splitWsAux f2 s := by
  induction f1 with
  | zero => intro f2 s h1 h2; omega
  | succ f1 ih =>
      intro f2 s h1 h2
      cases f2 with
      | zero => omega
      | succ f2 =>
          cases s with
          | nil => rfl
          | cons c cs =>
              rw [splitWsAux, splitWsAux]
              rw [List.length_cons] at h1 h2
              by_cases hc : isSpace c = true
              · rw [if_pos hc, if_pos hc]
                exact ih f2 cs (by omega) (by omega)
              · rw [if_neg hc, if_neg hc]
                congr 1
                have hd : (cs.dropWhile (fun x => !isSpace x)).length ≤ cs.length :=
                  (List.dropWhile_suffix (fun x => !isSpace x)).sublist.length_le
                exact ih f2 _ (by omega) (by omega)

theorem splitWs_cons (c : Char) (cs : List Char) :
    splitWs (c :: cs) =
      if isSpace c then splitWs cs
      else (c :: (cs.takeWhile (fun x => !isSpace x))) ::
        splitWs (cs.dropWhile (fun x => !isSpace x)) := by
  have h : splitWs (c :: cs) = splitWsAux (cs.length + 1 + 1) (c :: cs) := by
    rw [splitWs, List.length_cons]
  rw [h, splitWsAux]
  by_cases hc : isSpace c = true
  · rw [if_pos hc, if_pos hc]
    rfl
  · rw [if_neg hc, if_neg hc]
    congr 1
    rw [splitWs]
    have hd : (cs.dropWhile (fun x => !isSpace x)).length ≤ cs.length :=
      (List.dropWhile_suffix (fun x => !isSpace x)).sublist.length_le
    exact splitWsAux_irrel _ _ _ (by omega) (by omega)

theorem splitWsAux_tokens (fuel : Nat) : ∀ (s : List Char),
    ∀ t ∈ splitWsAux fuel s, t ≠ [] ∧ ∀ c ∈ t, isSpace c = false := by
  induction fuel with
  | zero => intro s t ht; simp [splitWsAux] at ht
  | succ fuel ih =>
      intro s t ht
      cases s with
      | nil => simp [splitWsAux] at ht
      | cons c cs =>
          rw [splitWsAux] at ht
          by_cases hc : isSpace c = true
          · rw [if_pos hc] at ht
            exact ih cs t ht
          · rw [if_neg hc] at ht
            rcases List.mem_cons.mp ht with ht | ht
            · subst ht
              refine ⟨by simp, ?_⟩
              intro x hx
              rcases List.mem_cons.mp hx with hx | hx
              · subst hx
                exact Bool.eq_false_iff.mpr hc
              · have := List.mem_takeWhile_imp hx
                simpa using this
            · exact ih _ t ht

theorem splitWs_tokens (s : List Char) :
    ∀ t ∈ splitWs s, t ≠ [] ∧ ∀ c ∈ t, isSpace c = false :=
  splitWsAux_tokens (s.length + 1) s

theorem splitWs_token_nil (t : List Char) (hne : t ≠ [])
    (hsp : ∀ c ∈ t, isSpace c = false) : splitWs t = [t] := by
  rcases t with _ | ⟨c, t⟩
  · exact absurd rfl hne
  · have hc : isSpace c = false := hsp c (by simp)
    rw [splitWs_cons, if_neg (by simp [hc])]
    have htake : t.takeWhile (fun x => !isSpace x) = t := by
      rw [List.takeWhile_eq_self_iff]
      intro x hx
      simp [hsp x (List.mem_cons_of_mem c hx)]
    have hdrop : t.dropWhile (fun x => !isSpace x) = [] := by
      rw [List.dropWhile_eq_nil_iff]
      intro x hx
      simp [hsp x (List.mem_cons_of_mem c hx)]
    rw [htake, hdrop]
    rfl

theorem splitWs_token_cons (t r : List Char) (hne : t ≠ [])
    (hsp : ∀ c ∈ t, isSpace c = false) :
    splitWs (t ++ ' ' :: r) = t :: splitWs r := by
  rcases t with _ | ⟨c, t⟩
  · exact absurd rfl hne
  · have hc : isSpace c = false := hsp c (by simp)
    rw [List.cons_append, splitWs_cons, if_neg (by simp [hc])]
    have hall : ∀ x ∈ t, (fun x => !isSpace x) x = true := by
      intro x hx
      simp [hsp x (List.mem_cons_of_mem c hx)]
    have htake : (t ++ ' ' :: r).takeWhile (fun x => !isSpace x) = t := by
      rw [List.takeWhile_append, List.takeWhile_eq_self_iff.mpr hall]
      rw [if_pos rfl, List.takeWhile_cons]
      simp [isSpace]
    have hdrop : (t ++ ' ' :: r).dropWhile (fun x => !isSpace x) = ' ' :: r := by
      rw [List.dropWhile_append, List.dropWhile_eq_nil_iff.mpr hall]
      rw [List.dropWhile_cons]
      simp [isSpace]
    rw [htake, hdrop, splitWs_cons, if_pos (by simp [isSpace])]

theorem splitWs_joinSpace (ts : List (List Char))
    (h : ∀ t ∈ ts, t ≠ [] ∧ ∀ c ∈ t, isSpace c = false) :
    splitWs (joinSpace ts) = ts := by
  induction ts with
  | nil => rfl
  | cons t ts ih =>
      rcases ts with _ | ⟨t2, ts⟩
      · rw [joinSpace]
        exact splitWs_token_nil t (h t (by simp)).1 (h t (by simp)).2
      · have hj : joinSpace (t :: t2 :: ts) = t ++ ' ' :: joinSpace (t2 :: ts) := rfl
        rw [hj, splitWs_token_cons t _ (h t (by simp)).1 (h t (by simp)).2]
        rw [ih]
        intro u hu
        exact h u (List.mem_cons_of_mem t hu)

theorem parseHexDigitsAux_append (l1 l2 : List Char) (acc a : Nat)
    (h : parseHexDigitsAux l1 acc = some a) :
    parseHexDigitsAux (l1 ++ l2) acc = parseHexDigitsAux l2 a := by
  induction l1 generalizing acc with
  | nil =>
      rw [parseHexDigitsAux] at h
      injection h with h
      rw [List.nil_append, h]
  | cons c cs ih =>
      cases hd : hexDigit? c with
      | none =>
          rw [parseHexDigitsAux, hd] at h
          exact absurd h (by simp)
      | some d =>
          have hstep : ∀ (t : List Char) (b : Nat),
              parseHexDigitsAux (c :: t) b = parseHexDigitsAux t (b * 16 + d) := by
            intro t b
            rw [parseHexDigitsAux, hd]
          rw [List.cons_append, hstep]
          rw [hstep] at h
          exact ih (acc * 16 + d) h

theorem parseHexDigitsAux_singleton (c : Char) (d a : Nat)
    (h : hexDigit? c = some d) :
    parseHexDigitsAux [c] a = some (a * 16 + d) := by
  rw [parseHexDigitsAux, h]
  rfl

theorem hexDigit?_hexDigitChar (d : Nat) (h : d < 16) :
    hexDigit? (hexDigitChar d) = some d := by
  interval_cases d <;> decide

theorem natToHexAux_irrel (f1 : Nat) : ∀ (f2 n : Nat),
    n < f1 → n < f2 → natToHexAux f1 n = natToHexAux f2 n := by
  induction f1 with
  | zero => intro f2 n h1 h2; omega
  | succ f1 ih =>
      intro f2 n h1 h2
      cases f2 with
      | zero => omega
      | succ f2 =>
          rw [natToHexAux, natToHexAux]
          by_cases h : n < 16
          · rw [if_pos h, if_pos h]
          · rw [if_neg h, if_neg h]
            congr 1
            have hd := Nat.div_lt_self (show 0 < n by omega) (show 1 < 16 by omega)
            exact ih f2 (n / 16) (by omega) (by omega)

theorem natToHex_unfold (n : Nat) :
    natToHex n = if n < 16 then [hexDigitChar n]
      else natToHex (n / 16) ++ [hexDigitChar (n % 16)] := by
  rw [natToHex, natToHexAux]
  by_cases h : n < 16
  · rw [if_pos h, if_pos h]
  · rw [if_neg h, if_neg h]
    congr 1
    rw [natToHex]
    have hd := Nat.div_lt_self (show 0 < n by omega) (show 1 < 16 by omega)
    exact natToHexAux_irrel _ _ _ (by omega) (by omega)

theorem natToHex_ne_nil (n : Nat) : natToHex n ≠ [] := by
  rw [natToHex_unfold]
  split <;> simp

theorem parseHexDigitsAux_natToHex (n : Nat) : ∀ (acc : Nat),
    parseHexDigitsAux (natToHex n) acc =
      some (acc * 16 ^ (natToHex n).length + n) := by
  induction n using Nat.strong_induction_on with
  | _ n ih =>
      intro acc
      by_cases h : n < 16
      · rw [natToHex_unfold, if_pos h,
          parseHexDigitsAux_singleton _ n _ (hexDigit?_hexDigitChar n h)]
        simp
      · have hd := Nat.div_lt_self (show 0 < n by omega) (show 1 < 16 by omega)
        have hrec : natToHex n = natToHex (n / 16) ++ [hexDigitChar (n % 16)] := by
          conv_lhs => rw [natToHex_unfold]
          rw [if_neg h]
        rw [hrec,
          parseHexDigitsAux_append _ _ _ _ (ih (n / 16) hd acc),
          parseHexDigitsAux_singleton _ (n % 16) _
            (hexDigit?_hexDigitChar (n % 16) (Nat.mod_lt n (by omega)))]
        congr 1
        rw [List.length_append, List.length_singleton, pow_succ]
        have hdm : (acc * 16 ^ (natToHex (n / 16)).length + n / 16) * 16 + n % 16 =
            acc * (16 ^ (natToHex (n / 16)).length * 16) + (16 * (n / 16) + n % 16) := by
          ring
        rw [hdm, Nat.div_add_mod]

theorem hexClass_natToHex (n : Nat) :
    ∀ c ∈ natToHex n, ('0' ≤ c ∧ c ≤ '9') ∨ ('a' ≤ c ∧ c ≤ 'f') := by
  induction n using Nat.strong_induction_on with
  | _ n ih =>
      by_cases h : n < 16
      · rw [natToHex_unfold, if_pos h]
        intro c hc
        rw [List.mem_singleton] at hc
        subst hc
        interval_cases n <;> decide
      · have hd := Nat.div_lt_self (show 0 < n by omega) (show 1 < 16 by omega)
        rw [natToHex_unfold, if_neg h]
        intro c hc
        rcases List.mem_append.mp hc with hc | hc
        · exact ih (n / 16) hd c hc
        · rw [List.mem_singleton] at hc
          subst hc
          have hm : n % 16 < 16 := Nat.mod_lt n (by omega)
          interval_cases hx : (n % 16) <;> decide

theorem hexClass_not_space (c : Char)
    (h : ('0' ≤ c ∧ c ≤ '9') ∨ ('a' ≤ c ∧ c ≤ 'f')) : isSpace c = false := by
  cases hs : isSpace c
  · rfl
  · exfalso
    unfold isSpace at hs
    simp only [Bool.or_eq_true, decide_eq_true_eq] at hs
    rcases hs with ((((h1 | h1) | h1) | h1) | h1) | h1 <;> subst h1 <;>
      rcases h with ⟨h2, h3⟩ | ⟨h2, h3⟩ <;> revert h2 h3 <;> decide

theorem hexClass_not_xX (c : Char)
    (h : ('0' ≤ c ∧ c ≤ '9') ∨ ('a' ≤ c ∧ c ≤ 'f')) : c ≠ 'x' ∧ c ≠ 'X' := by
  constructor <;> intro heq <;> subst heq <;>
    rcases h with ⟨h2, h3⟩ | ⟨h2, h3⟩ <;> revert h2 h3 <;> decide

theorem hexClass_formatHexPad (w n : Nat) :
    ∀ c ∈ formatHexPad w n, ('0' ≤ c ∧ c ≤ '9') ∨ ('a' ≤ c ∧ c ≤ 'f') := by
  intro c hc
  rw [formatHexPad] at hc
  rcases List.mem_append.mp hc with hc | hc
  · have := List.eq_of_mem_replicate hc
    subst this
    left
    decide
  · exact hexClass_natToHex n c hc

theorem parseHex?_of_digits (s : List Char) (hne : s ≠ [])
    (hx : ∀ c ∈ s, c ≠ 'x' ∧ c ≠ 'X') :
    parseHex? s = parseHexDigitsAux s 0 := by
  rcases s with _ | ⟨a, _ | ⟨b, rest⟩⟩
  · exact absurd rfl hne
  · rfl
  · have hb := hx b (by simp)
    rw [parseHex?]
    rw [if_neg (by rintro ⟨_, h | h⟩ <;> [exact hb.1 h; exact hb.2 h])]

theorem parseHexDigitsAux_zeros (z : Nat) (l : List Char) :
    parseHexDigitsAux (List.replicate z '0' ++ l) 0 = parseHexDigitsAux l 0 := by
  induction z with
  | zero => rw [List.replicate_zero, List.nil_append]
  | succ z ih =>
      rw [List.replicate_succ, List.cons_append]
      have hstep : parseHexDigitsAux ('0' :: (List.replicate z '0' ++ l)) 0 =
          parseHexDigitsAux (List.replicate z '0' ++ l) 0 := rfl
      rw [hstep, ih]

theorem parseHex?_formatHexPad (w n : Nat) :
    parseHex? (formatHexPad w n) = some n := by
  have hform : formatHexPad w n ≠ [] := by
    rw [formatHexPad]
    intro h
    rcases List.append_eq_nil.mp h with ⟨_, h2⟩
    exact natToHex_ne_nil n h2
  rw [parseHex?_of_digits _ hform
    (fun c hc => hexClass_not_xX c (hexClass_formatHexPad w n c hc))]
  rw [formatHexPad, parseHexDigitsAux_zeros, parseHexDigitsAux_natToHex]
  simp

theorem natToHex_length_le (n : Nat) : ∀ (k : Nat), 1 ≤ k → n < 16 ^ k →
    (natToHex n).length ≤ k := by
  induction n using Nat.strong_induction_on with
  | _ n ih =>
      intro k hk h
      by_cases hn : n < 16
      · rw [natToHex_unfold, if_pos hn, List.length_singleton]
        exact hk
      · have hd := Nat.div_lt_self (show 0 < n by omega) (show 1 < 16 by omega)
        rw [natToHex_unfold, if_neg hn, List.length_append, List.length_singleton]
        have hk2 : 2 ≤ k := by
          by_contra hcon
          have : k = 1 := by omega
          subst this
          rw [pow_one] at h
          omega
        have hdiv : n / 16 < 16 ^ (k - 1) := by
          rw [Nat.div_lt_iff_lt_mul (by omega)]
          calc n < 16 ^ k := h
          _ = 16 ^ (k - 1) * 16 := by
              rw [← pow_succ]
              congr 1
              omega
        have := ih (n / 16) hd (k - 1) (by omega) hdiv
        omega

theorem formatHexPad_length (w n : Nat) (h : n < 16 ^ w) (hw : 1 ≤ w) :
    (formatHexPad w n).length = w := by
  rw [formatHexPad, List.length_append, List.length_replicate]
  have := natToHex_length_le n w hw h
  omega

theorem land_land_self (a b : Nat) : (a &&& b) &&& b = a &&& b := by
  apply Nat.eq_of_testBit_eq
  intro i
  rw [Nat.testBit_and, Nat.testBit_and]
  cases a.testBit i <;> cases b.testBit i <;> rfl

theorem processTokens?_eq (mask : Nat) (ts : List (List Char)) (v : Nat)
    (hlen : 2 ≤ ts.length)
    (hv : parseHex? (ts.getD (ts.length - 2) []) = some v) :
    processTokens? mask ts =
      some ((ts.set (ts.length - 2) (formatHexPad 128 (v &&& mask))).set
        (ts.length - 1) (if v &&& mask = 0 then ['0'] else ['1'])) := by
  rw [processTokens?, if_pos hlen, hv]

theorem formatHexPad_ne_nil (w n : Nat) : formatHexPad w n ≠ [] := by
  rw [formatHexPad]
  intro h
  rcases List.append_eq_nil.mp h with ⟨_, h2⟩
  exact natToHex_ne_nil n h2

theorem set_set_of_getD (l : List α) (p q : Nat) (x y d : α)
    (hp : l.getD p d = x) (hq : l.getD q d = y)
    (hpl : p < l.length) (hql : q < l.length) :
    (l.set p x).set q y = l := by
  rw [← hp, ← hq]
  rw [set_getD_self l p d hpl]
  exact set_getD_self l q d hql

theorem newTokens_wf (mask v : Nat) (ts : List (List Char))
    (hts : ∀ t ∈ ts, t ≠ [] ∧ ∀ c ∈ t, isSpace c = false) :
    ∀ t ∈ (ts.set (ts.length - 2) (formatHexPad 128 (v &&& mask))).set
        (ts.length - 1) (if v &&& mask = 0 then ['0'] else ['1']),
      t ≠ [] ∧ ∀ c ∈ t, isSpace c = false := by
  intro t ht
  rcases List.mem_or_eq_of_mem_set ht with ht | heq
  · rcases List.mem_or_eq_of_mem_set ht with ht | heq
    · exact hts t ht
    · subst heq
      refine ⟨formatHexPad_ne_nil _ _, ?_⟩
      intro c hc
      exact hexClass_not_space c (hexClass_formatHexPad _ _ c hc)
  · subst heq
    split <;> exact ⟨by simp, by intro c hc; rw [List.mem_singleton] at hc; subst hc; decide⟩

theorem newTokens_getD (mask v : Nat) (ts : List (List Char)) (hlen : 2 ≤ ts.length) :
    ((ts.set (ts.length - 2) (formatHexPad 128 (v &&& mask))).set
        (ts.length - 1) (if v &&& mask = 0 then ['0'] else ['1'])).length = ts.length ∧
    ((ts.set (ts.length - 2) (formatHexPad 128 (v &&& mask))).set
        (ts.length - 1) (if v &&& mask = 0 then ['0'] else ['1'])).getD (ts.length - 2) []
      = formatHexPad 128 (v &&& mask) ∧
    ((ts.set (ts.length - 2) (formatHexPad 128 (v &&& mask))).set
        (ts.length - 1) (if v &&& mask = 0 then ['0'] else ['1'])).getD (ts.length - 1) []
      = (if v &&& mask = 0 then ['0'] else ['1']) := by
  have hp : ts.length - 2 < ts.length := by omega
  have hq : ts.length - 1 < ts.length := by omega
  have hpq : ts.length - 1 ≠ ts.length - 2 := by omega
  refine ⟨by rw [List.length_set, List.length_set], ?_, ?_⟩
  · rw [getD_set_ne _ _ _ _ _ hpq, getD_set_self _ _ _ _ hp]
  · rw [getD_set_self]
    rw [List.length_set]
    exact hq

theorem writeTestvectorLine?_eq (mask : Nat) (line : List Char) (v : Nat)
    (hlen : 2 ≤ (splitWs line).length)
    (hv : parseHex? ((splitWs line).getD ((splitWs line).length - 2) []) = some v) :
    writeTestvectorLine? mask line =
      some (joinSpace (((splitWs line).set ((splitWs line).length - 2)
          (formatHexPad 128 (v &&& mask))).set
        ((splitWs line).length - 1) (if v &&& mask = 0 then ['0'] else ['1']))) := by
  rw [writeTestvectorLine?, processTokens?_eq mask _ v hlen hv]
  rfl

theorem processedLine_facts (mask : Nat) (line : List Char) (v : Nat) (out : List Char)
    (hlen : 2 ≤ (splitWs line).length)
    (hv : parseHex? ((splitWs line).getD ((splitWs line).length - 2) []) = some v)
    (hout : writeTestvectorLine? mask line = some out) :
    splitWs out = ((splitWs line).set ((splitWs line).length - 2)
        (formatHexPad 128 (v &&& mask))).set
      ((splitWs line).length - 1) (if v &&& mask = 0 then ['0'] else ['1']) ∧
    triggerLine? out = some (v &&& mask) ∧
    writeTestvectorLine? mask out = some out := by
  rw [writeTestvectorLine?_eq mask line v hlen hv] at hout
  injection hout with hout
  obtain ⟨hN1, hN2, hN3⟩ := newTokens_getD mask v (splitWs line) hlen
  have hsplit : splitWs out =
      ((splitWs line).set ((splitWs line).length - 2)
          (formatHexPad 128 (v &&& mask))).set
        ((splitWs line).length - 1) (if v &&& mask = 0 then ['0'] else ['1']) := by
    rw [← hout]
    exact splitWs_joinSpace _ (newTokens_wf mask v (splitWs line) (splitWs_tokens line))
  have hlen2 : 2 ≤ (splitWs out).length := by
    rw [hsplit, hN1]
    exact hlen
  have hparse2 : parseHex? ((splitWs out).getD ((splitWs out).length - 2) [])
      = some (v &&& mask) := by
    rw [hsplit, hN1, hN2]
    exact parseHex?_formatHexPad 128 (v &&& mask)
  refine ⟨hsplit, ?_, ?_⟩
  · rw [triggerLine?, if_pos hlen2, hparse2]
  · rw [writeTestvectorLine?_eq mask out (v &&& mask) hlen2 hparse2, land_land_self]
    rw [hsplit, hN1]
    rw [set_set_of_getD _ ((splitWs line).length - 2) ((splitWs line).length - 1)
      _ _ [] hN2 hN3 (by rw [hN1]; omega) (by rw [hN1]; omega)]
    rw [hout]

/-- C3: for every input line with at least two whitespace-separated tokens
whose second-to-last token parses as base 16 (to a 512-bit value),
`write_testvector` writes the line with the second-to-last field replaced by
the masked value `v &&& mask` rendered as a 128-hex-digit zero-padded
lowercase string (its characters lie in 0-9 or a-f, its length is 128, and
it parses back to `v &&& mask`), and the fin-or field replaced by "1"
exactly when the masked value is nonzero; the all-zero mask always yields
fin-or "0". -/
theorem c3_write_testvector_line (mask : Nat) (line : List Char) (v : Nat)
    (hlen : 2 ≤ (splitWs line).length)
    (hv : parseHex? ((splitWs line).getD ((splitWs line).length - 2) []) = some v)
    (hbound : v < 16 ^ 128) :
    writeTestvectorLine? mask line =
      some (joinSpace (((splitWs line).set ((splitWs line).length - 2)
          (formatHexPad 128 (v &&& mask))).set
        ((splitWs line).length - 1) (if v &&& mask = 0 then ['0'] else ['1']))) ∧
    (formatHexPad 128 (v &&& mask)).length = 128 ∧
    parseHex? (formatHexPad 128 (v &&& mask)) = some (v &&& mask) ∧
    (∀ c ∈ formatHexPad 128 (v &&& mask),
      ('0' ≤ c ∧ c ≤ '9') ∨ ('a' ≤ c ∧ c ≤ 'f')) ∧
    (v &&& mask ≠ 0 → (if v &&& mask = 0 then (['0'] : List Char) else ['1']) = ['1']) ∧
    (mask = 0 → (if v &&& mask = 0 then (['0'] : List Char) else ['1']) = ['0']) := by
  refine ⟨writeTestvectorLine?_eq mask line v hlen hv, ?_, parseHex?_formatHexPad _ _,
    hexClass_formatHexPad _ _, ?_, ?_⟩
  · exact formatHexPad_length 128 (v &&& mask)
      (Nat.lt_of_le_of_lt Nat.and_le_left hbound) (by omega)
  · intro hnz
    rw [if_neg hnz]
  · intro hm
    subst hm
    rw [if_pos (Nat.and_zero v)]

/-- Witness for C3 at the concrete line "21 1" with mask 1: the firing
field 0x21 is masked to 0x1 and the fin-or stays 1. -/
theorem c3_write_testvector_line_witness :
    writeTestvectorLine? 1 ['2', '1', ' ', '1'] =
      some (joinSpace (((splitWs ['2', '1', ' ', '1']).set
          ((splitWs ['2', '1', ' ', '1']).length - 2)
          (formatHexPad 128 (33 &&& 1))).set
        ((splitWs ['2', '1', ' ', '1']).length - 1)
        (if 33 &&& 1 = 0 then ['0'] else ['1']))) ∧
    (formatHexPad 128 (33 &&& 1)).length = 128 ∧
    parseHex? (formatHexPad 128 (33 &&& 1)) = some (33 &&& 1) ∧
    (∀ c ∈ formatHexPad 128 (33 &&& 1),
      ('0' ≤ c ∧ c ≤ '9') ∨ ('a' ≤ c ∧ c ≤ 'f')) ∧
    (33 &&& 1 ≠ 0 → (if 33 &&& 1 = 0 then (['0'] : List Char) else ['1']) = ['1']) ∧
    (1 = 0 → (if 33 &&& 1 = 0 then (['0'] : List Char) else ['1']) = ['0']) :=
  c3_write_testvector_line 1 ['2', '1', ' ', '1'] 33 (by decide) (by decide)
    (by norm_num)

theorem writeTestvectorLine?_some_inv (mask : Nat) (l out : List Char)
    (h : writeTestvectorLine? mask l = some out) :
    2 ≤ (splitWs l).length ∧
    ∃ v, parseHex? ((splitWs l).getD ((splitWs l).length - 2) []) = some v := by
  rw [writeTestvectorLine?] at h
  cases hp : processTokens? mask (splitWs l) with
  | none => rw [hp] at h; simp at h
  | some ts2 =>
      rw [processTokens?] at hp
      by_cases hlen : 2 ≤ (splitWs l).length
      · rw [if_pos hlen] at hp
        cases hv : parseHex? ((splitWs l).getD ((splitWs l).length - 2) []) with
        | none => rw [hv] at hp; simp at hp
        | some v => exact ⟨hlen, v, rfl⟩
      · rw [if_neg hlen] at hp
        simp at hp

theorem writeTestvectorFile?_eq_some (mask : Nat) (lines out : List (List Char)) :
    writeTestvectorFile? mask lines = some out ↔
      (writeTestvectorRun mask lines).1 = out ∧
      (writeTestvectorRun mask lines).2 = true := by
  rw [writeTestvectorFile?]
  cases h2 : (writeTestvectorRun mask lines).2 <;> simp [h2]

/-- C6: partitioning is an idempotent projection. If a `write_testvector`
run over a source file succeeds and produces `out`, then running
`write_testvector` with the same mask over `out` reproduces `out`
unchanged, and line by line the firing value of `out` is the firing value
of the source ANDed with the mask. -/
theorem c6_partition_idempotent (mask : Nat) (lines out : List (List Char))
    (h : writeTestvectorFile? mask lines = some out) :
    writeTestvectorFile? mask out = some out ∧
    out.length = lines.length ∧
    ∀ i < lines.length, ∃ v,
      triggerLine? (lines.getD i []) = some v ∧
      triggerLine? (out.getD i []) = some (v &&& mask) := by
  induction lines generalizing out with
  | nil =>
      rw [writeTestvectorFile?_eq_some] at h
      obtain ⟨h1, _⟩ := h
      rw [writeTestvectorRun] at h1
      subst h1
      refine ⟨rfl, rfl, ?_⟩
      intro i hi
      exact absurd hi (by simp)
  | cons l ls ih =>
      rw [writeTestvectorFile?_eq_some] at h
      obtain ⟨h1, h2⟩ := h
      cases hl : writeTestvectorLine? mask l with
      | none =>
          rw [writeTestvectorRun, hl] at h2
          simp at h2
      | some l2 =>
          rw [writeTestvectorRun, hl] at h1 h2
          simp only at h1 h2
          obtain ⟨hlen, v, hv⟩ := writeTestvectorLine?_some_inv mask l l2 hl
          obtain ⟨hsplit2, htrig2, hidem2⟩ :=
            processedLine_facts mask l v l2 hlen hv hl
          obtain ⟨ihA, ihB, ihC⟩ := ih (writeTestvectorRun mask ls).1
            ((writeTestvectorFile?_eq_some mask ls _).mpr ⟨rfl, h2⟩)
          subst h1
          refine ⟨?_, ?_, ?_⟩
          · rw [writeTestvectorFile?_eq_some] at ihA ⊢
            rw [writeTestvectorRun, hidem2]
            simp only []
            exact ⟨by rw [ihA.1], by rw [ihA.2]⟩
          · rw [List.length_cons, List.length_cons, ihB]
          · intro i hi
            cases i with
            | zero =>
                refine ⟨v, ?_, ?_⟩
                · rw [List.getD_cons_zero, triggerLine?, if_pos hlen, hv]
                · rw [List.getD_cons_zero]
                  exact htrig2
            | succ i =>
                rw [List.getD_cons_succ, List.getD_cons_succ]
                exact ihC i (by simpa using hi)

/-- Witness for C6: partitioning the one-line file "21 1" with mask 1 and
re-partitioning the result is a fixed point. -/
theorem c6_partition_idempotent_witness :
    writeTestvectorFile? 1 [joinSpace [formatHexPad 128 1, ['1']]] =
      some [joinSpace [formatHexPad 128 1, ['1']]] ∧
    [joinSpace [formatHexPad 128 1, ['1']]].length =
      [['2', '1', ' ', '1']].length ∧
    ∀ i < [['2', '1', ' ', '1']].length, ∃ v,
      triggerLine? ([['2', '1', ' ', '1']].getD i []) = some v ∧
      triggerLine? ([joinSpace [formatHexPad 128 1, ['1']]].getD i [])
        = some (v &&& 1) :=
  c6_partition_idempotent 1 [['2', '1', ' ', '1']]
    [joinSpace [formatHexPad 128 1, ['1']]] (by decide)

theorem writeTestvectorLine?_none_iff (mask : Nat) (line : List Char) :
    writeTestvectorLine? mask line = none ↔ lineMalformed line = true := by
  rw [writeTestvectorLine?, lineMalformed]
  by_cases hlen : 2 ≤ (splitWs line).length
  · rw [processTokens?, if_pos hlen]
    cases hv : parseHex? ((splitWs line).getD ((splitWs line).length - 2) []) with
    | none => simp [show ¬((splitWs line).length < 2) by omega]
    | some v => simp [show ¬((splitWs line).length < 2) by omega]
  · rw [processTokens?, if_neg hlen]
    simp [show (splitWs line).length < 2 by omega]

theorem writeTestvectorRun_append_bad (mask : Nat) (pre : List (List Char))
    (bad : List Char) (post : List (List Char))
    (hpre : ∀ l ∈ pre, lineMalformed l = false)
    (hbad : lineMalformed bad = true) :
    writeTestvectorRun mask (pre ++ bad :: post) =
      (pre.map (fun l => (writeTestvectorLine? mask l).getD []), false) := by
  induction pre with
  | nil =>
      rw [List.nil_append, writeTestvectorRun,
        (writeTestvectorLine?_none_iff mask bad).mpr hbad]
      rfl
  | cons p pre ih =>
      have hp : lineMalformed p = false := hpre p (by simp)
      cases hw : writeTestvectorLine? mask p with
      | none =>
          rw [writeTestvectorLine?_none_iff] at hw
          rw [hw] at hp
          simp at hp
      | some l2 =>
          have hred : writeTestvectorRun mask (p :: (pre ++ bad :: post)) =
              (l2 :: (writeTestvectorRun mask (pre ++ bad :: post)).1,
               (writeTestvectorRun mask (pre ++ bad :: post)).2) := by
            rw [writeTestvectorRun, hw]
          rw [List.cons_append, hred,
            ih (fun l hl => hpre l (List.mem_cons_of_mem p hl))]
          rw [List.map_cons, hw]
          rfl

theorem writeTestvectorRun_ok (mask : Nat) (tv : List (List Char))
    (h : ∀ l ∈ tv, lineMalformed l = false) :
    (writeTestvectorRun mask tv).2 = true := by
  induction tv with
  | nil => rfl
  | cons l ls ih =>
      have hl : lineMalformed l = false := h l (by simp)
      cases hw : writeTestvectorLine? mask l with
      | none =>
          rw [writeTestvectorLine?_none_iff] at hw
          rw [hw] at hl
          simp at hl
      | some l2 =>
          have hred : writeTestvectorRun mask (l :: ls) =
              (l2 :: (writeTestvectorRun mask ls).1,
               (writeTestvectorRun mask ls).2) := by
            rw [writeTestvectorRun, hw]
          rw [hred]
          exact ih (fun x hx => h x (List.mem_cons_of_mem l hx))

theorem prepPhase_ok (tv : List (List Char))
    (h : ∀ l ∈ tv, lineMalformed l = false) :
    ∀ (masks : List Nat) (id : Nat), (prepPhase tv masks id).2 = none := by
  intro masks
  induction masks with
  | nil => intro id; rfl
  | cons m rest ih =>
      intro id
      rw [prepPhase, if_pos (writeTestvectorRun_ok m tv h)]
      exact ih (id + 1)

/-- C8: a malformed source line (fewer than 2 fields, or an unparsable hex
field) aborts the whole partition: the run fails with the partition error
of the first module, only the lines before the malformed one have been
written, and no simulation job is launched. -/
theorem c8_malformed_line_aborts (base : List Char) (m : Nat) (rest : List Nat)
    (tv pre : List (List Char)) (bad : List Char) (post : List (List Char))
    (lockAppears : Nat → Bool)
    (htv : tv = pre ++ bad :: post)
    (hpre : ∀ l ∈ pre, lineMalformed l = false)
    (hbad : lineMalformed bad = true) :
    coordinatorRun base (m :: rest) tv lockAppears =
      { written := [pre.map (fun l => (writeTestvectorLine? m l).getD [])],
        launched := [], cancelled := [],
        error := some (CoordError.partitionError 0) } := by
  subst htv
  have hrun := writeTestvectorRun_append_bad m pre bad post hpre hbad
  rw [coordinatorRun, prepPhase, hrun]
  simp

/-- Witness for C8: a two-line file whose second line "z" has a single
field makes the partition of the only module abort with one written line
and no launched job. -/
theorem c8_malformed_line_aborts_witness :
    coordinatorRun ['b'] [3] ([['1', ' ', '1']] ++ ['z'] :: []) (fun _ => true) =
      { written := [[['1', ' ', '1']].map (fun l => (writeTestvectorLine? 3 l).getD [])],
        launched := [], cancelled := [],
        error := some (CoordError.partitionError 0) } :=
  c8_malformed_line_aborts ['b'] 3 [] ([['1', ' ', '1']] ++ ['z'] :: [])
    [['1', ' ', '1']] ['z'] [] (fun _ => true) rfl (by decide) (by decide)

theorem launchLoop_timeout (lockAppears : Nat → Bool) (base : List Char)
    (pre : List Nat) (i : Nat) (post : List Nat)
    (hpre : ∀ j ∈ pre, lockAppears j = true) (hi : lockAppears i = false) :
    ∀ st : LaunchState, launchLoop lockAppears base (pre ++ i :: post) st =
      { launched := st.launched ++ (pre ++ [i]), cancelled := st.cancelled,
        error := some (timeoutMessage (lockFilePath base i)) } := by
  induction pre with
  | nil =>
      intro st
      rw [List.nil_append, launchLoop, if_neg (by simp [hi])]
      simp
  | cons j pre ih =>
      intro st
      have hj : lockAppears j = true := hpre j (by simp)
      rw [List.cons_append, launchLoop, if_pos hj]
      rw [ih (fun x hx => hpre x (List.mem_cons_of_mem j hx))]
      simp

/-- C9: if every module before `i` produces its lock marker in time but
module `i`'s marker never appears within the timeout, the coordinator run
fails with the timeout error naming module `i`'s marker path; the launched
jobs are exactly the modules up to and including `i` (so no later module
is launched), and nothing is ever cancelled. -/
theorem c9_lock_timeout_aborts (base : List Char) (masks : List Nat)
    (tv : List (List Char)) (lockAppears : Nat → Bool)
    (pre : List Nat) (i : Nat) (post : List Nat)
    (htv : ∀ l ∈ tv, lineMalformed l = false)
    (hrange : List.range masks.length = pre ++ i :: post)
    (hpre : ∀ j ∈ pre, lockAppears j = true)
    (hi : lockAppears i = false) :
    coordinatorRun base masks tv lockAppears =
      { written := (prepPhase tv masks 0).1,
        launched := pre ++ [i], cancelled := [],
        error := some (CoordError.lockTimeout
          (timeoutMessage (lockFilePath base i))) } := by
  rw [coordinatorRun, prepPhase_ok tv htv masks 0, hrange,
    launchLoop_timeout lockAppears base pre i post hpre hi
      { launched := [], cancelled := [], error := none }]
  simp

/-- Witness for C9: with two modules, module 0's marker appears but module
1's does not; the run stops with the timeout error for module 1's marker
path and only modules 0 and 1 launched. -/
theorem c9_lock_timeout_aborts_witness :
    coordinatorRun ['b'] [0, 0] [] (fun j => j == 0) =
      { written := (prepPhase [] [0, 0] 0).1,
        launched := [0] ++ [1], cancelled := [],
        error := some (CoordError.lockTimeout
          (timeoutMessage (lockFilePath ['b'] 1))) } :=
  c9_lock_timeout_aborts ['b'] [0, 0] [] (fun j => j == 0) [0] 1 []
    (by simp) (by decide) (by decide) (by decide)

theorem natToBinAux_irrel (f1 : Nat) : ∀ (f2 n : Nat),
    n < f1 → n < f2 → natToBinAux f1 n = natToBinAux f2 n := by
  induction f1 with
  | zero => intro f2 n h1 h2; omega
  | succ f1 ih =>
      intro f2 n h1 h2
      cases f2 with
      | zero => omega
      | succ f2 =>
          rw [natToBinAux, natToBinAux]
          by_cases h : n < 2
          · rw [if_pos h, if_pos h]
          · rw [if_neg h, if_neg h]
            congr 1
            have hd := Nat.div_lt_self (show 0 < n by omega) (show 1 < 2 by omega)
            exact ih f2 (n / 2) (by omega) (by omega)

theorem natToBin_unfold (n : Nat) :
    natToBin n = if n < 2 then [binDigitChar n]
      else natToBin (n / 2) ++ [binDigitChar (n % 2)] := by
  rw [natToBin, natToBinAux]
  by_cases h : n < 2
  · rw [if_pos h, if_pos h]
  · rw [if_neg h, if_neg h]
    congr 1
    rw [natToBin]
    have hd := Nat.div_lt_self (show 0 < n by omega) (show 1 < 2 by omega)
    exact natToBinAux_irrel _ _ _ (by omega) (by omega)

theorem natToBin_reverse_getD (i : Nat) : ∀ (k : Nat),
    (((natToBin i).map (fun c => c.toNat - 48)).reverse).getD k 0 =
      if i.testBit k then 1 else 0 := by
  induction i using Nat.strong_induction_on with
  | _ i ih =>
      intro k
      by_cases h : i < 2
      · rw [natToBin_unfold, if_pos h]
        interval_cases i
        · cases k with
          | zero => decide
          | succ k =>
              rw [List.map_cons, List.map_nil, List.reverse_singleton,
                List.getD_cons_succ, List.getD_nil, Nat.zero_testBit]
              simp
        · cases k with
          | zero => decide
          | succ k =>
              rw [List.map_cons, List.map_nil, List.reverse_singleton,
                List.getD_cons_succ, List.getD_nil, Nat.testBit_succ]
              norm_num
      · have h2 : i / 2 < i := Nat.div_lt_self (by omega) (by omega)
        have hrec : natToBin i = natToBin (i / 2) ++ [binDigitChar (i % 2)] := by
          conv_lhs => rw [natToBin_unfold]
          rw [if_neg h]
        rw [hrec, List.map_append, List.reverse_append, List.map_cons,
          List.map_nil, List.reverse_singleton, List.singleton_append]
        cases k with
        | zero =>
            rw [List.getD_cons_zero, Nat.testBit_zero]
            rcases Nat.mod_two_eq_zero_or_one i with hm | hm <;> rw [hm] <;> decide
        | succ k =>
            rw [List.getD_cons_succ, ih (i / 2) h2 k, Nat.testBit_succ]

theorem natToBin_lt (i : Nat) : i < 2 ^ (natToBin i).length := by
  induction i using Nat.strong_induction_on with
  | _ i ih =>
      by_cases h : i < 2
      · rw [natToBin_unfold, if_pos h, List.length_singleton]
        omega
      · have h2 : i / 2 < i := Nat.div_lt_self (by omega) (by omega)
        have hrec : natToBin i = natToBin (i / 2) ++ [binDigitChar (i % 2)] := by
          conv_lhs => rw [natToBin_unfold]
          rw [if_neg h]
        rw [hrec, List.length_append, List.length_singleton, pow_succ]
        have hih := ih (i / 2) h2
        have hmod := Nat.mod_two_eq_zero_or_one i
        have hdm := Nat.div_add_mod i 2
        omega

theorem bitfield_length (i n : Nat) : n ≤ (bitfield i n).length := by
  rw [bitfield, List.length_reverse, List.length_map, List.length_append,
    List.length_replicate]
  omega

theorem getD_replicate_zero (z : Nat) : ∀ (k : Nat),
    (List.replicate z (0 : Nat)).getD k 0 = 0 := by
  induction z with
  | zero => intro k; rw [List.replicate_zero, List.getD_nil]
  | succ z ih =>
      intro k
      rw [List.replicate_succ]
      cases k with
      | zero => rw [List.getD_cons_zero]
      | succ k => rw [List.getD_cons_succ]; exact ih k

theorem bitfield_getD (i n k : Nat) :
    (bitfield i n).getD k 0 = if i.testBit k then 1 else 0 := by
  rw [bitfield, List.map_append, List.reverse_append, List.map_replicate,
    List.reverse_replicate]
  have hz : ('0'.toNat - 48 : Nat) = 0 := by decide
  by_cases hk : k < ((natToBin i).map (fun c => c.toNat - 48)).reverse.length
  · rw [List.getD_append _ _ _ _ hk, natToBin_reverse_getD]
  · rw [List.getD_append_right _ _ _ _ (by omega)]
    have hlen : (natToBin i).length ≤ k := by
      rw [List.length_reverse, List.length_map] at hk
      omega
    have hbit : i.testBit k = false := by
      apply Nat.testBit_lt_two_pow
      calc i < 2 ^ (natToBin i).length := natToBin_lt i
      _ ≤ 2 ^ k := Nat.pow_le_pow_right (by omega) hlen
    rw [hbit, hz, getD_replicate_zero]
    simp

theorem zipWith_add_getD (a : List Nat) : ∀ (b : List Nat) (k : Nat),
    k < a.length → k < b.length →
    (List.zipWith (fun x y => x + y) a b).getD k 0 = a.getD k 0 + b.getD k 0 := by
  induction a with
  | nil => intro b k hk _; simp at hk
  | cons x a ih =>
      intro b k hk1 hk2
      cases b with
      | nil => simp at hk2
      | cons y b =>
          rw [List.zipWith_cons_cons]
          cases k with
          | zero => rw [List.getD_cons_zero, List.getD_cons_zero, List.getD_cons_zero]
          | succ k =>
              rw [List.getD_cons_succ, List.getD_cons_succ, List.getD_cons_succ]
              exact ih b k (by simpa using hk1) (by simpa using hk2)

theorem triggerFold (lines : List (List Char)) : ∀ (start res : List Nat),
    start.length = max_algorithms →
    List.foldlM (fun out line => (triggerLine? line).map
      (fun v => List.zipWith (fun x y => x + y) out (bitfield v max_algorithms)))
      start lines = some res →
    res.length = max_algorithms ∧ ∀ k, k < max_algorithms →
      res.getD k 0 = start.getD k 0 + lines.countP
        (fun l => ((triggerLine? l).map (fun v => v.testBit k)).getD false) := by
  induction lines with
  | nil =>
      intro start res hs h
      rw [List.foldlM_nil] at h
      cases h
      refine ⟨hs, ?_⟩
      intro k hk
      rw [List.countP_nil, Nat.add_zero]
  | cons l ls ih =>
      intro start res hs h
      rw [List.foldlM_cons] at h
      cases hv : triggerLine? l with
      | none => rw [hv] at h; simp at h
      | some v =>
          rw [hv] at h
          have h2 : List.foldlM (fun out line => (triggerLine? line).map
              (fun v => List.zipWith (fun x y => x + y) out (bitfield v max_algorithms)))
              (List.zipWith (fun x y => x + y) start (bitfield v max_algorithms))
              ls = some res := h
          have hlen2 : (List.zipWith (fun x y => x + y) start
              (bitfield v max_algorithms)).length = max_algorithms := by
            rw [List.length_zipWith, hs]
            have := bitfield_length v max_algorithms
            omega
          obtain ⟨hres, hcount⟩ := ih _ res hlen2 h2
          refine ⟨hres, ?_⟩
          intro k hk
          rw [hcount k hk, List.countP_cons,
            zipWith_add_getD _ _ k (by omega)
              (by have := bitfield_length v max_algorithms; omega),
            bitfield_getD, hv]
          cases hb : v.testBit k <;> simp [hb] <;> omega

/-- C7: for a well-formed test-vector file, `trigger_list` returns 512
counters whose entry `k` is the number of lines whose firing value has bit
`k` set, with bit 0 the least significant bit of the parsed hex value. -/
theorem c7_trigger_list_counts (lines : List (List Char)) (out : List Nat)
    (h : triggerListFile? lines = some out) :
    out.length = max_algorithms ∧ ∀ k, k < max_algorithms →
      out.getD k 0 = lines.countP
        (fun l => ((triggerLine? l).map (fun v => v.testBit k)).getD false) := by
  rw [triggerListFile?] at h
  obtain ⟨h1, h2⟩ := triggerFold lines (List.replicate max_algorithms 0) out
    (by rw [List.length_replicate]) h
  refine ⟨h1, ?_⟩
  intro k hk
  rw [h2 k hk, getD_replicate_zero, Nat.zero_add]

/-- Witness for C7 on the one-line file "21 1": the counters are the
bitfield of 0x21 and entry k counts the lines with bit k set. -/
theorem c7_trigger_list_counts_witness :
    (List.zipWith (fun x y => x + y) (List.replicate max_algorithms 0)
      (bitfield 33 max_algorithms)).length = max_algorithms ∧
    ∀ k, k < max_algorithms →
      (List.zipWith (fun x y => x + y) (List.replicate max_algorithms 0)
        (bitfield 33 max_algorithms)).getD k 0 =
      [['2', '1', ' ', '1']].countP
        (fun l => ((triggerLine? l).map (fun v => v.testBit k)).getD false) :=
  c7_trigger_list_counts [['2', '1', ' ', '1']]
    (List.zipWith (fun x y => x + y) (List.replicate max_algorithms 0)
      (bitfield 33 max_algorithms)) (by rfl)

theorem check_algocountAux_head (l : List Nat) : ∀ (i : Nat),
    (check_algocountAux l i).head? = firstNonzeroEntryAux l i := by
  induction l with
  | nil => intro i; rfl
  | cons x xs ih =>
      intro i
      rw [check_algocountAux, firstNonzeroEntryAux]
      by_cases hx : x ≠ 0
      · rw [if_pos hx, if_pos hx, List.head?_cons]
      · rw [if_neg hx, if_neg hx]
        exact ih (i + 1)

theorem check_algocount_head (l : List Nat) :
    (check_algocount l).head? = some (firstNonzeroEntry l) := by
  rw [check_algocount, firstNonzeroEntry]
  by_cases he : (check_algocountAux l 0).isEmpty = true
  · rw [if_pos he, List.head?_cons]
    rw [List.isEmpty_iff] at he
    rw [← check_algocountAux_head, he]
    rfl
  · rw [if_neg he, ← check_algocountAux_head]
    cases haux : check_algocountAux l 0 with
    | nil => rw [haux] at he; simp at he
    | cons a as => rw [List.head?_cons]; rfl

theorem check_algocount_ne_nil (l : List Nat) : check_algocount l ≠ [] := by
  rw [check_algocount]
  by_cases he : (check_algocountAux l 0).isEmpty = true
  · rw [if_pos he]; simp
  · rw [if_neg he]
    intro h
    rw [h] at he
    simp at he

/-- C4 counterexample: with two modules both reporting index 0, the first
with a zero simulated count and the second with 5, the tuple used by the
verdict comparison is `(1, 5)` (first nonzero), not the first module's
report (count 0); with matching reference counts the per-algorithm scan
reports no error, while a first-module comparison would have mismatched
(0 against 5). -/
theorem c4_first_tuple_counterexample :
    (accumSim [⟨[], [⟨0, 0, 5⟩]⟩, ⟨[], [⟨0, 5, 5⟩]⟩] 0).head? = some 0 ∧
    compTupleSim? [⟨[], [⟨0, 0, 5⟩]⟩, ⟨[], [⟨0, 5, 5⟩]⟩] 0 = some (1, 5) ∧
    compTupleSim? [⟨[], [⟨0, 0, 5⟩]⟩, ⟨[], [⟨0, 5, 5⟩]⟩] 0 ≠ some (0, 0) ∧
    algoScan? false [⟨0, "L1_X", 0⟩] [⟨[], [⟨0, 0, 5⟩]⟩, ⟨[], [⟨0, 5, 5⟩]⟩]
      = some ⟨true, 0, []⟩ := by
  decide

/-- C4 amended: the verdict comparison tuple `algos_sim[index][0]` (and
likewise for `algos_tv`) is the first nonzero count in report order paired
with its position, or the sentinel `(-1, 0)` when every reported count is
zero; an unreported index has no tuple. -/
theorem c4_comparison_first_nonzero (modules : List ModuleResult) (index : Nat) :
    compTupleSim? modules index =
      (if (accumSim modules index).isEmpty then none
       else some (firstNonzeroEntry (accumSim modules index))) ∧
    compTupleTv? modules index =
      (if (accumTv modules index).isEmpty then none
       else some (firstNonzeroEntry (accumTv modules index))) := by
  constructor
  · rw [compTupleSim?, algosDictSim?]
    by_cases he : (accumSim modules index).isEmpty = true
    · rw [if_pos he, if_pos he]
      rfl
    · rw [if_neg he, if_neg he, Option.some_bind, check_algocount_head]
  · rw [compTupleTv?, algosDictTv?]
    by_cases he : (accumTv modules index).isEmpty = true
    · rw [if_pos he, if_pos he]
      rfl
    · rw [if_neg he, if_neg he, Option.some_bind, check_algocount_head]

theorem check_algocountAux_nil_of_zero (l : List Nat) : ∀ (i : Nat),
    (∀ x ∈ l, x = 0) → check_algocountAux l i = [] := by
  induction l with
  | nil => intro i _; rfl
  | cons x xs ih =>
      intro i h
      rw [check_algocountAux, if_neg (by simp [h x (by simp)])]
      exact ih (i + 1) (fun y hy => h y (List.mem_cons_of_mem x hy))

/-- C5 counterexample: an aggregated result set whose only report is for
index 1, together with a menu algorithm of index 0: the comparison lookup
for the unreported menu index 0 fails (models the KeyError) instead of
being defined as the sentinel `(-1, 0)`, and the per-algorithm comparison
loop itself fails. -/
theorem c5_unreported_counterexample :
    compTupleSim? [⟨[], [⟨1, 2, 2⟩]⟩] 0 = none ∧
    compTupleTv? [⟨[], [⟨1, 2, 2⟩]⟩] 0 = none ∧
    compTupleSim? [⟨[], [⟨1, 2, 2⟩]⟩] 0 ≠ some (-1, 0) ∧
    algoScan? false [⟨0, "L1_X", 0⟩] [⟨[], [⟨1, 2, 2⟩]⟩] = none := by
  decide

/-- C5 amended: the comparison tuple is defined (isSome) exactly for
indices that accumulated at least one report; the sentinel `(-1, 0)` is
what an index reported with only zero counts gets, while an index that
never accumulated any report has a failing lookup. -/
theorem c5_sentinel_reported_only (modules : List ModuleResult) (index : Nat) :
    ((compTupleSim? modules index).isSome ↔ accumSim modules index ≠ []) ∧
    ((compTupleTv? modules index).isSome ↔ accumTv modules index ≠ []) ∧
    (accumSim modules index ≠ [] →
      (∀ x ∈ accumSim modules index, x = 0) →
      compTupleSim? modules index = some (-1, 0)) ∧
    (accumTv modules index ≠ [] →
      (∀ x ∈ accumTv modules index, x = 0) →
      compTupleTv? modules index = some (-1, 0)) := by
  refine ⟨?_, ?_, ?_, ?_⟩
  · rw [compTupleSim?, algosDictSim?]
    by_cases he : (accumSim modules index).isEmpty = true
    · rw [if_pos he]
      rw [List.isEmpty_iff] at he
      simp [he]
    · rw [if_neg he, Option.some_bind, check_algocount_head]
      simp only [List.isEmpty_iff] at he
      simpa using he
  · rw [compTupleTv?, algosDictTv?]
    by_cases he : (accumTv modules index).isEmpty = true
    · rw [if_pos he]
      rw [List.isEmpty_iff] at he
      simp [he]
    · rw [if_neg he, Option.some_bind, check_algocount_head]
      simp only [List.isEmpty_iff] at he
      simpa using he
  · intro hne hzero
    rw [compTupleSim?, algosDictSim?, if_neg (by simp [List.isEmpty_iff, hne]),
      Option.some_bind, check_algocount, check_algocountAux_nil_of_zero _ 0 hzero]
    rfl
  · intro hne hzero
    rw [compTupleTv?, algosDictTv?, if_neg (by simp [List.isEmpty_iff, hne]),
      Option.some_bind, check_algocount, check_algocountAux_nil_of_zero _ 0 hzero]
    rfl

/-- Witness for C5 amended: index 3 is reported once with count 0, so its
comparison tuple is the sentinel. -/
theorem c5_sentinel_reported_only_witness :
    compTupleSim? [⟨[], [⟨3, 0, 0⟩]⟩] 3 = some (-1, 0) :=
  (c5_sentinel_reported_only [⟨[], [⟨3, 0, 0⟩]⟩] 3).2.2.1 (by decide) (by decide)

set_option maxRecDepth 8192 in
/-- C1 (evidence of the code bug): an aggregated result set whose only
failure is a per-bx JSON-level mismatch (a module with a nonempty errors
array and a differing count entry at an index outside the menu, all
per-algorithm totals matching and no untracked trigger): the summary
prints the failing verdict (`json_err_msg` is false, so "Failed!" is
printed, not "Success!"), yet `success` stays true, so the process exits
with status 0 instead of the claimed 1. -/
theorem c1_perbx_only_failure_exits_zero :
    runVerdict? false [⟨0, "L1_X", 0⟩]
      [⟨[⟨7, [], [], 0, 0⟩], [⟨0, 5, 5⟩, ⟨1, 2, 3⟩]⟩]
      (List.replicate 512 0) = some ⟨true, 0, false⟩ ∧
    printedPass ⟨true, 0, false⟩ = false ∧
    exitCode ⟨true, 0, false⟩ = 0 := by
  refine ⟨?_, rfl, rfl⟩
  decide

/-- C10: the error counter reported on exit is exactly the per-algorithm
scan's counter; an untracked-trigger anomaly forces `success` to false and
exit status 1 without touching it, so a run with no count mismatches exits
1 while printing a failure count of 0. -/
theorem c10_err_cnt_counts_only_algo_mismatches
    (a_ignored : Bool) (menu : List Algorithm) (modules : List ModuleResult)
    (trigger_liste : List Nat) (v : RunVerdict) (scan : AlgoScan)
    (hv : runVerdict? a_ignored menu modules trigger_liste = some v)
    (hscan : algoScan? a_ignored menu modules = some scan)
    (huntracked : untrackedTriggers menu trigger_liste ≠ []) :
    v.err_cnt = scan.err_cnt ∧ v.success = false ∧ exitCode v = 1 ∧
    printedPass v = false := by
  rw [runVerdict?] at hv
  by_cases ht : transformOk modules = true
  · rw [if_pos ht, hscan, Option.some_bind] at hv
    by_cases hm : multipleOk menu modules = true
    · rw [if_pos hm] at hv
      injection hv with hv
      subst hv
      have hemp : (untrackedTriggers menu trigger_liste).isEmpty = false := by
        rw [List.isEmpty_eq_false_iff_exists_mem]
        cases hu : untrackedTriggers menu trigger_liste with
        | nil => exact absurd hu huntracked
        | cons a as => exact ⟨a, by simp⟩
      refine ⟨rfl, ?_, ?_, ?_⟩
      · rw [hemp, Bool.and_false]
      · rw [exitCode]
        rw [hemp, Bool.and_false]
        rfl
      · rw [printedPass]
        rw [hemp, Bool.and_false, Bool.and_false]
    · rw [if_neg hm] at hv
      simp at hv
  · rw [if_neg ht] at hv
    simp at hv

/-- Witness for C10: an empty menu and module set with a single-entry
histogram whose bit 0 fired 3 times: untracked trigger at index 0, exit
status 1, failure count 0. -/
theorem c10_err_cnt_counts_only_algo_mismatches_witness :
    (⟨false, 0, true⟩ : RunVerdict).err_cnt = (⟨true, 0, []⟩ : AlgoScan).err_cnt ∧
    (⟨false, 0, true⟩ : RunVerdict).success = false ∧
    exitCode ⟨false, 0, true⟩ = 1 ∧ printedPass ⟨false, 0, true⟩ = false :=
  c10_err_cnt_counts_only_algo_mismatches false [] [] [3]
    ⟨false, 0, true⟩ ⟨true, 0, []⟩ (by decide) (by decide) (by decide)

end UgtSim
